import Mathlib

/-!
Verification of the core of `urbit_dojo.py`: the virtual terminal buffer,
the input encoders (per-character and batched belt creation), the
`send_until_bell` probing loop, and the slog-message correlator.

Each Python component is shallowly embedded as an executable Lean
definition; Python `int` cursor coordinates are modelled as `Int`
(all clamps in the source keep them non-negative for screens of
positive width and height), rows as `List Char`, and float timestamps
as `ℚ` (order comparisons on finite floats agree with their exact
rational values).
-/

/-- One screen row: in the source a Python string of length `width`. -/
abbrev Row := List Char

/-- The ASCII whitespace characters stripped by Python's `str.rstrip()`
    (space, tab, newline, carriage return, vertical tab, form feed). -/
def pyIsSpace (c : Char) : Bool :=
  c == ' ' || c == '\t' || c == '\n' || c == '\r' ||
    c == Char.ofNat 11 || c == Char.ofNat 12

/-- Python `line.rstrip()`: remove trailing whitespace characters. -/
def rstrip (l : Row) : Row :=
  (l.reverse.dropWhile pyIsSpace).reverse

/-- State of `TerminalBuffer` from `urbit_dojo.py`: fixed `width`,
    growable `height`, cursor coordinates (Python ints), the screen rows,
    and the bell flag. -/
structure TerminalBuffer where
  width : Nat
  height : Nat
  cursor_x : Int
  cursor_y : Int
  screen : List Row
  bell_occurred : Bool
deriving DecidableEq

/-- `TerminalBuffer.__init__`: blank screen of `height` rows of `width`
    spaces, cursor at the origin, no bell. -/
def TerminalBuffer.init (width height : Nat) : TerminalBuffer :=
  { width := width
    height := height
    cursor_x := 0
    cursor_y := 0
    screen := List.replicate height (List.replicate width ' ')
    bell_occurred := false }

/-- One step of `write_text`: write one character at the cursor if it is
    inside the screen, advancing the cursor; otherwise drop it.  The
    source indexes `self.screen[self.cursor_y]` directly (rows always
    have length `width` and `len(screen) = height`); we use `getD`/`set`,
    which agree on in-range non-negative indices. -/
def TerminalBuffer.write_char (b : TerminalBuffer) (ch : Char) : TerminalBuffer :=
  if b.cursor_x < (b.width : Int) ∧ b.cursor_y < (b.height : Int) then
    { b with
      screen := b.screen.set b.cursor_y.toNat
        ((b.screen.getD b.cursor_y.toNat []).set b.cursor_x.toNat ch)
      cursor_x := b.cursor_x + 1 }
  else b

/-- `TerminalBuffer.write_text`: write each character in order. -/
def TerminalBuffer.write_text (b : TerminalBuffer) (s : List Char) : TerminalBuffer :=
  s.foldl TerminalBuffer.write_char b

/-- `TerminalBuffer.scroll_up`: append one blank row and grow `height`
    (the source never removes the top line). -/
def TerminalBuffer.scroll_up (b : TerminalBuffer) : TerminalBuffer :=
  { b with
    screen := b.screen ++ [List.replicate b.width ' ']
    height := b.height + 1 }

/-- `TerminalBuffer.newline`: advance to the start of the next line,
    growing the screen when the cursor passes the bottom. -/
def TerminalBuffer.newline (b : TerminalBuffer) : TerminalBuffer :=
  let b1 : TerminalBuffer := { b with cursor_y := b.cursor_y + 1, cursor_x := 0 }
  if (b1.height : Int) ≤ b1.cursor_y then
    let b2 := b1.scroll_up
    { b2 with cursor_y := (b2.height : Int) - 1 }
  else b1

/-- `TerminalBuffer.set_cursor_col`: `cursor_x = min(max(0, col), width - 1)`. -/
def TerminalBuffer.set_cursor_col (b : TerminalBuffer) (col : Int) : TerminalBuffer :=
  { b with cursor_x := min (max 0 col) ((b.width : Int) - 1) }

/-- `TerminalBuffer.set_cursor_pos`: both coordinates clamped independently. -/
def TerminalBuffer.set_cursor_pos (b : TerminalBuffer) (x y : Int) : TerminalBuffer :=
  { b with
    cursor_x := min (max 0 x) ((b.width : Int) - 1)
    cursor_y := min (max 0 y) ((b.height : Int) - 1) }

/-- `TerminalBuffer.clear_line`: blank the current row from the cursor to
    the end of the line (the source loops `for i in range(cursor_x, width)`
    over a row of length `width`). -/
def TerminalBuffer.clear_line (b : TerminalBuffer) : TerminalBuffer :=
  if b.cursor_y < (b.height : Int) then
    { b with
      screen := b.screen.set b.cursor_y.toNat
        ((b.screen.getD b.cursor_y.toNat []).mapIdx
          (fun i c => if b.cursor_x.toNat ≤ i then ' ' else c)) }
  else b

/-- `TerminalBuffer.clear_screen`: all rows blanked at the current
    (possibly grown) `height`, cursor back to the origin. -/
def TerminalBuffer.clear_screen (b : TerminalBuffer) : TerminalBuffer :=
  { b with
    screen := List.replicate b.height (List.replicate b.width ' ')
    cursor_x := 0
    cursor_y := 0 }

/-- `TerminalBuffer.record_bell`. -/
def TerminalBuffer.record_bell (b : TerminalBuffer) : TerminalBuffer :=
  { b with bell_occurred := true }

/-- `TerminalBuffer.has_bell`. -/
def TerminalBuffer.has_bell (b : TerminalBuffer) : Bool :=
  b.bell_occurred

/-- Loop body of `get_visible_text`: keep the stripped row if it is
    non-blank or some earlier row has already been kept
    (Python: `if stripped or lines: lines.append(stripped)`). -/
def visibleStep (lines : List Row) (line : Row) : List Row :=
  let stripped := rstrip line
  if stripped ≠ [] ∨ lines ≠ [] then lines ++ [stripped] else lines

/-- The trailing `while lines and not lines[-1]: lines.pop()` loop of
    `get_visible_text`: remove trailing empty rows. -/
def dropTrailingBlank (lines : List Row) : List Row :=
  (lines.reverse.dropWhile List.isEmpty).reverse

/-- `TerminalBuffer.get_visible_text`: strip each row, skip rows until the
    first non-blank one, drop trailing blank rows, join with newlines. -/
def TerminalBuffer.get_visible_text (b : TerminalBuffer) : String :=
  String.intercalate "\n"
    ((dropTrailingBlank (b.screen.foldl visibleStep [])).map List.asString)

/-- The mutating operations of `TerminalBuffer` reachable from blit
    processing (`_process_blit`), as a command type. -/
inductive TermOp where
  | write (s : List Char)
  | nl
  | setCol (c : Int)
  | setPos (x y : Int)
  | clearL
  | clearS
  | bell
deriving DecidableEq

/-- Apply one terminal operation. -/
def TermOp.apply (op : TermOp) (b : TerminalBuffer) : TerminalBuffer :=
  match op with
  | .write s => b.write_text s
  | .nl => b.newline
  | .setCol c => b.set_cursor_col c
  | .setPos x y => b.set_cursor_pos x y
  | .clearL => b.clear_line
  | .clearS => b.clear_screen
  | .bell => b.record_bell

/-- Apply a sequence of terminal operations in order. -/
def applyOps (ops : List TermOp) (b : TerminalBuffer) : TerminalBuffer :=
  ops.foldl (fun b op => op.apply b) b

example : ((TerminalBuffer.init 2 2).write_text ['a', 'b']).cursor_x = 2 := by decide

example :
    (applyOps [TermOp.nl, TermOp.write ['a']]
      (TerminalBuffer.init 1 2)).get_visible_text = "a" := by decide

/-! ## Input encoder -/

/-- A logical input symbol: either a named arrow string (`'ARROW_UP'` and
    friends in the source) or a single character. -/
inductive Symb where
  | arrowUp
  | arrowDown
  | arrowLeft
  | arrowRight
  | chr (c : Char)
deriving DecidableEq

/-- A belt (keystroke event) as sent to the ship:
    `{aro: d}`, `{mod: {mod: "ctl", key: k}}`, `{ret: null}`, `{bac: null}`
    or `{txt: [...]}`. -/
inductive Belt where
  | aro (d : Char)
  | mod (key : Char)
  | ret
  | bac
  | txt (run : List Char)
deriving DecidableEq

/-- `_send_character`: unbatched encoding of one symbol, `none` when the
    source returns without posting a belt. -/
def sendCharacter : Symb → Option Belt
  | .arrowUp => some (.aro 'u')
  | .arrowDown => some (.aro 'd')
  | .arrowLeft => some (.aro 'l')
  | .arrowRight => some (.aro 'r')
  | .chr ch =>
    let c := ch.toNat
    if c = 9 then some (.mod 'i')
    else if c = 13 then some .ret
    else if c = 8 ∨ c = 127 then some .bac
    else if 1 ≤ c ∧ c ≤ 26 then
      if Char.ofNat (96 + c) ≠ 'd' then some (.mod (Char.ofNat (96 + c)))
      else none
    else if 32 ≤ c ∧ c ≤ 126 then some (.txt [ch])
    else none

/-- Flushing the accumulated printable run in `_create_belts_from_string`
    (`if strap: belts.append({"txt": list(strap)})`). -/
def flushTxt (strap : List Char) : List Belt :=
  if strap = [] then [] else [.txt strap]

/-- The non-printable branch of `_create_belts_from_string`: the belt(s)
    appended for a character of code `c` after the pending run is flushed. -/
def specialBelt (c : Nat) : List Belt :=
  if c = 0 then []
  else if c = 8 ∨ c = 127 then [.bac]
  else if c = 13 then [.ret]
  else if c = 9 then [.mod 'i']
  else if 1 ≤ c ∧ c ≤ 26 then
    if Char.ofNat (96 + c) ≠ 'd' then [.mod (Char.ofNat (96 + c))] else []
  else []

/-- The loop of `_create_belts_from_string` with the mutable `strap`
    accumulator made explicit. -/
def beltsAux : List Char → List Char → List Belt
  | strap, [] => flushTxt strap
  | strap, ch :: rest =>
    if 32 ≤ ch.toNat ∧ ch.toNat ≠ 127 then beltsAux (strap ++ [ch]) rest
    else flushTxt strap ++ specialBelt ch.toNat ++ beltsAux [] rest

/-- `_create_belts_from_string`: batched encoding of a text. -/
def createBeltsFromString (text : List Char) : List Belt :=
  beltsAux [] text

/-! ## Bell prober -/

/-- `BellResponse` from `urbit_dojo.py`. -/
structure BellResponse (α : Type) where
  input_sequence : List α
  chars_accepted : Nat
  chars_rejected : List α
  terminal_state : String
  bell_position : Int
  full_output : String
deriving DecidableEq

/-- The probing loop of `send_until_bell`: starting at index `i` with
    `fuel` symbols left, return the final `chars_accepted`.  `bell i`
    abstracts "replaying all events captured so far, after sending symbol
    `i`, shows a bell on a fresh `TerminalBuffer`". -/
def charsAcceptedAux (bell : Nat → Bool) : Nat → Nat → Nat
  | i, 0 => i
  | i, fuel + 1 => if bell i then i else charsAcceptedAux bell (i + 1) fuel

/-- The connected path of `send_until_bell` (after the session guard):
    the per-step bell observations and the final replayed terminal output
    are oracle parameters; the index bookkeeping is the source's. -/
def send_until_bell {α : Type} (chars : List α) (bell : Nat → Bool)
    (finalOutput : String) : BellResponse α :=
  let acc := charsAcceptedAux bell 0 chars.length
  { input_sequence := chars
    chars_accepted := acc
    chars_rejected := if acc < chars.length then chars.drop acc else []
    terminal_state := finalOutput
    bell_position := if acc < chars.length then (acc : Int) else -1
    full_output := finalOutput }

/-- `send_until_bell` including its not-connected guard
    (`if not self.cookies or not self.channel_id`). -/
def send_until_bell_entry {α : Type} (connected : Bool) (chars : List α)
    (bell : Nat → Bool) (finalOutput : String) : BellResponse α :=
  if connected then send_until_bell chars bell finalOutput
  else
    { input_sequence := chars
      chars_accepted := 0
      chars_rejected := chars
      terminal_state := "Not connected"
      bell_position := 0
      full_output := "Not connected" }

/-! ## Slog correlator -/

/-- A timestamped slog message as stored in `slog_queue`.  The Python
    timestamp is a float; its exact value is a rational and only order
    comparisons are performed on it. -/
structure LogMessage where
  timestamp : ℚ
  message : String
deriving DecidableEq

/-- `_get_correlated_slog_messages`: drain the mailbox front to back,
    returning in-window messages, keeping too-new messages for reinsertion
    and dropping too-old ones.  Result: (returned messages, new mailbox). -/
def slogQuery (start stop : ℚ) : List LogMessage → List String × List LogMessage
  | [] => ([], [])
  | m :: rest =>
    let r := slogQuery start stop rest
    if start ≤ m.timestamp ∧ m.timestamp ≤ stop then (m.message :: r.1, r.2)
    else if stop < m.timestamp then (r.1, m :: r.2)
    else r

example : createBeltsFromString ['a', 'd', 'd'] = [Belt.txt ['a', 'd', 'd']] := by decide

example : (slogQuery 1 5 [⟨3, "a"⟩, ⟨7, "b"⟩, ⟨0, "c"⟩]).1 = ["a"] := by decide

example : (slogQuery 1 5 [⟨3, "a"⟩, ⟨7, "b"⟩, ⟨0, "c"⟩]).2 = [⟨7, "b"⟩] := by decide

/-! ## Encoder theorems (C1, C5) -/

lemma flushTxt_ne_mod (strap : List Char) (k : Char) :
    Belt.mod k ∉ flushTxt strap := by
  unfold flushTxt
  split <;> simp

lemma specialBelt_ne_mod_d (c : Nat) : Belt.mod 'd' ∉ specialBelt c := by
  unfold specialBelt
  split_ifs with h1 h2 h3 h4 h5 h6 <;> simp_all
  exact fun h => h6 h.symm

lemma beltsAux_ne_mod_d (text : List Char) :
    ∀ strap, Belt.mod 'd' ∉ beltsAux strap text := by
  induction text with
  | nil => intro strap; exact flushTxt_ne_mod strap 'd'
  | cons ch rest ih =>
    intro strap
    unfold beltsAux
    split
    · exact ih (strap ++ [ch])
    · intro hmem
      rcases List.mem_append.mp hmem with hmem | hmem
      · rcases List.mem_append.mp hmem with hmem | hmem
        · exact flushTxt_ne_mod strap 'd' hmem
        · exact specialBelt_ne_mod_d ch.toNat hmem
      · exact ih [] hmem

lemma ctrlD_toNat : (Char.ofNat 4).toNat = 4 := by decide

lemma ctrlD_key : Char.ofNat (96 + 4) = 'd' := by decide

/-- Claim C1: the encoder never emits a ctrl-D keystroke: unbatched
    encoding of the code-4 character produces no belt at all, batched
    encoding of a code-4 character flushes the pending text run and
    contributes nothing, and no belt `{mod: {mod: "ctl", key: "d"}}`
    ever appears in any encoder output. -/
theorem encoder_never_ctl_d :
    (∀ s : Symb, sendCharacter s ≠ some (Belt.mod 'd'))
    ∧ sendCharacter (Symb.chr (Char.ofNat 4)) = none
    ∧ (∀ text : List Char, Belt.mod 'd' ∉ createBeltsFromString text)
    ∧ (∀ strap rest, beltsAux strap (Char.ofNat 4 :: rest)
        = flushTxt strap ++ beltsAux [] rest) := by
  refine ⟨?_, by decide, ?_, ?_⟩
  · intro s
    cases s <;> simp only [sendCharacter] <;> try decide
    split_ifs with h1 h2 h3 h4 h5 h6 <;> simp_all
  · intro text
    exact beltsAux_ne_mod_d text []
  · intro strap rest
    have hguard : ¬ (32 ≤ (Char.ofNat 4).toNat ∧ (Char.ofNat 4).toNat ≠ 127) := by
      decide
    rw [beltsAux, if_neg hguard, ctrlD_toNat]
    have hspec : specialBelt 4 = [] := by decide
    rw [hspec]
    simp

/-- Witness for C1: a concrete input containing the code-4 byte whose
    batched encoding contains no ctrl-D belt. -/
theorem encoder_never_ctl_d_witness :
    Belt.mod 'd' ∉ createBeltsFromString ['a', Char.ofNat 4, 'b'] :=
  encoder_never_ctl_d.2.2.1 ['a', Char.ofNat 4, 'b']

lemma beltsAux_printable_run (pre : List Char) :
    ∀ (strap l : List Char),
      (∀ ch ∈ pre, 32 ≤ ch.toNat ∧ ch.toNat ≠ 127) →
      beltsAux strap (pre ++ l) = beltsAux (strap ++ pre) l := by
  induction pre with
  | nil => intro strap l _; simp
  | cons ch pre ih =>
    intro strap l hpre
    have hch : 32 ≤ ch.toNat ∧ ch.toNat ≠ 127 := hpre ch (by simp)
    have hrest : ∀ a ∈ pre, 32 ≤ a.toNat ∧ a.toNat ≠ 127 := by
      intro a ha; exact hpre a (by simp [ha])
    rw [List.cons_append, beltsAux, if_pos hch, ih (strap ++ [ch]) l hrest]
    simp

/-- Counterexample to claim C5 as stated: the character with code point
    200 is outside `[32,126]`, yet batched encoding coalesces it into a
    `txt` run instead of dropping it (the source tests `c >= 32 and
    c != 127`, not `c <= 126`). -/
theorem batching_accepts_code_above_126 :
    createBeltsFromString [Char.ofNat 200] = [Belt.txt [Char.ofNat 200]]
    ∧ ¬ ((Char.ofNat 200).toNat ≤ 126) := by decide

/-- Claim C5 (amended): in batched encoding, exactly the symbols with
    code point `≥ 32` and `≠ 127` are coalesced into pending `txt` runs;
    any other symbol first flushes the pending run as a single `txt`
    belt; and a non-printable symbol with no specific mapping (code 0 or
    codes 27 to 31) contributes no belt of its own. -/
theorem batching_characterization :
    (∀ text : List Char, text ≠ [] →
        (∀ ch ∈ text, 32 ≤ ch.toNat ∧ ch.toNat ≠ 127) →
        createBeltsFromString text = [Belt.txt text])
    ∧ (∀ (pre : List Char) (ch : Char) (rest : List Char), pre ≠ [] →
        (∀ a ∈ pre, 32 ≤ a.toNat ∧ a.toNat ≠ 127) →
        ¬ (32 ≤ ch.toNat ∧ ch.toNat ≠ 127) →
        createBeltsFromString (pre ++ ch :: rest)
          = Belt.txt pre :: (specialBelt ch.toNat ++ createBeltsFromString rest))
    ∧ (∀ c : Nat, c = 0 ∨ (27 ≤ c ∧ c ≤ 31) → specialBelt c = []) := by
  refine ⟨?_, ?_, ?_⟩
  · intro text hne hall
    have h := beltsAux_printable_run text [] [] hall
    simp only [List.append_nil, List.nil_append] at h
    rw [createBeltsFromString, h, beltsAux, flushTxt, if_neg hne]
  · intro pre ch rest hne hpre hch
    have h := beltsAux_printable_run pre [] (ch :: rest) hpre
    simp only [List.nil_append] at h
    rw [createBeltsFromString, h, beltsAux, if_neg hch, flushTxt, if_neg hne]
    simp [createBeltsFromString]
  · intro c hc
    rcases hc with rfl | ⟨h1, h2⟩
    · decide
    · interval_cases c <;> decide

/-- Witness for C5 (amended): the printable run `"add"` batches to a
    single `txt` belt. -/
theorem batching_characterization_witness :
    ['a', 'd', 'd'] ≠ ([] : List Char)
    ∧ createBeltsFromString ['a', 'd', 'd'] = [Belt.txt ['a', 'd', 'd']] :=
  ⟨by decide, batching_characterization.1 ['a', 'd', 'd'] (by decide) (by decide)⟩

/-! ## Bell prober theorems (C2, C10) -/

lemma charsAcceptedAux_no_bell (bell : Nat → Bool) :
    ∀ (fuel i : Nat), (∀ j, j < fuel → bell (i + j) = false) →
      charsAcceptedAux bell i fuel = i + fuel := by
  intro fuel
  induction fuel with
  | zero => intro i _; simp [charsAcceptedAux]
  | succ fuel ih =>
    intro i h
    have h0 : bell i = false := by simpa using h 0 (Nat.succ_pos fuel)
    rw [charsAcceptedAux, if_neg (by simp [h0])]
    have := ih (i + 1) (fun j hj => by
      have := h (j + 1) (by omega)
      simpa [Nat.add_assoc, Nat.add_comm 1 j] using this)
    omega

lemma charsAcceptedAux_first_bell (bell : Nat → Bool) :
    ∀ (fuel i k : Nat), k < fuel → bell (i + k) = true →
      (∀ j, j < k → bell (i + j) = false) →
      charsAcceptedAux bell i fuel = i + k := by
  intro fuel
  induction fuel with
  | zero => intro i k hk; omega
  | succ fuel ih =>
    intro i k hk hbk hfirst
    cases k with
    | zero =>
      have h0 : bell i = true := by simpa using hbk
      rw [charsAcceptedAux, if_pos h0]
      simp
    | succ k =>
      have h0 : bell i = false := by simpa using hfirst 0 (Nat.succ_pos k)
      rw [charsAcceptedAux, if_neg (by simp [h0])]
      have hb : bell (i + 1 + k) = true := by
        have : i + 1 + k = i + (k + 1) := by omega
        rw [this]; exact hbk
      have := ih (i + 1) k (by omega) hb (fun j hj => by
        have := hfirst (j + 1) (by omega)
        have hshift : i + 1 + j = i + (j + 1) := by omega
        rw [hshift]; exact this)
      omega

lemma charsAcceptedAux_le (bell : Nat → Bool) :
    ∀ (fuel i : Nat), i ≤ charsAcceptedAux bell i fuel
      ∧ charsAcceptedAux bell i fuel ≤ i + fuel := by
  intro fuel
  induction fuel with
  | zero => intro i; simp [charsAcceptedAux]
  | succ fuel ih =>
    intro i
    rw [charsAcceptedAux]
    by_cases h : bell i = true
    · rw [if_pos h]; omega
    · rw [if_neg h]
      have := ih (i + 1)
      omega

lemma charsAcceptedAux_full (bell : Nat → Bool) :
    ∀ (fuel i : Nat), charsAcceptedAux bell i fuel = i + fuel →
      ∀ j, j < fuel → bell (i + j) = false := by
  intro fuel
  induction fuel with
  | zero => intro i _ j hj; omega
  | succ fuel ih =>
    intro i hacc j hj
    by_cases h : bell i = true
    · rw [charsAcceptedAux, if_pos h] at hacc
      omega
    · have h0 : bell i = false := by simpa using h
      rw [charsAcceptedAux, if_neg h] at hacc
      cases j with
      | zero => simpa using h0
      | succ j =>
        have := ih (i + 1) (by omega) j (by omega)
        have hshift : i + 1 + j = i + (j + 1) := by omega
        rw [hshift] at this
        exact this

/-- Claim C2: the connected `send_until_bell` loop reports, for any input
    and any per-step bell observations: with no bell, `chars_accepted`
    equal to the input length, `bell_position = -1` and an empty
    `chars_rejected` (the empty input included); with the first bell at
    index `i`, `chars_accepted = i`, `bell_position = i` and
    `chars_rejected` the tail of the input from index `i`; and
    `bell_position = -1` exactly when no bell was observed. -/
theorem send_until_bell_correct {α : Type} (chars : List α) (bell : Nat → Bool)
    (out : String) :
    ((∀ i, i < chars.length → bell i = false) →
        (send_until_bell chars bell out).chars_accepted = chars.length
        ∧ (send_until_bell chars bell out).bell_position = -1
        ∧ (send_until_bell chars bell out).chars_rejected = [])
    ∧ (∀ i, i < chars.length → bell i = true → (∀ j, j < i → bell j = false) →
        (send_until_bell chars bell out).chars_accepted = i
        ∧ (send_until_bell chars bell out).bell_position = (i : Int)
        ∧ (send_until_bell chars bell out).chars_rejected = chars.drop i)
    ∧ ((send_until_bell chars bell out).bell_position = -1
        ↔ ∀ i, i < chars.length → bell i = false) := by
  refine ⟨?_, ?_, ?_⟩
  · intro hno
    have hacc : charsAcceptedAux bell 0 chars.length = chars.length := by
      have := charsAcceptedAux_no_bell bell chars.length 0
        (fun j hj => by simpa using hno j hj)
      omega
    simp [send_until_bell, hacc]
  · intro i hi hbi hfirst
    have hacc : charsAcceptedAux bell 0 chars.length = i := by
      have := charsAcceptedAux_first_bell bell chars.length 0 i hi
        (by simpa using hbi) (fun j hj => by simpa using hfirst j hj)
      omega
    simp [send_until_bell, hacc, hi]
  · constructor
    · intro hpos i hi
      by_cases hlt : charsAcceptedAux bell 0 chars.length < chars.length
      · exfalso
        simp only [send_until_bell, if_pos hlt] at hpos
        omega
      · have hle := (charsAcceptedAux_le bell chars.length 0).2
        have hacc : charsAcceptedAux bell 0 chars.length = chars.length := by omega
        have := charsAcceptedAux_full bell chars.length 0 (by omega) i hi
        simpa using this
    · intro hno
      have hacc : charsAcceptedAux bell 0 chars.length = chars.length := by
        have := charsAcceptedAux_no_bell bell chars.length 0
          (fun j hj => by simpa using hno j hj)
        omega
      simp [send_until_bell, hacc]

/-- Witness for C2: a concrete probe where the first bell fires at
    index 1, giving one accepted symbol, `bell_position = 1`, and the tail
    from index 1 rejected. -/
theorem send_until_bell_correct_witness :
    (1 < (['a', 'b', 'c'] : List Char).length)
    ∧ (send_until_bell ['a', 'b', 'c'] (fun i => decide (i = 1)) "o").chars_accepted = 1
    ∧ (send_until_bell ['a', 'b', 'c'] (fun i => decide (i = 1)) "o").bell_position = 1
    ∧ (send_until_bell ['a', 'b', 'c'] (fun i => decide (i = 1)) "o").chars_rejected
        = ['b', 'c'] := by
  have h := (send_until_bell_correct ['a', 'b', 'c'] (fun i => decide (i = 1)) "o").2.1
    1 (by decide) (by decide) (by decide)
  exact ⟨by decide, h.1, h.2.1, by rw [h.2.2]; decide⟩

/-- Claim C10: with no connected session, `send_until_bell` returns the
    sentinel response: nothing accepted, the whole input rejected, both
    output fields `"Not connected"`, and `bell_position = 0` (not `-1`)
    although no bell was observed (the result is independent of the bell
    oracle and of any captured output). -/
theorem not_connected_sentinel {α : Type} (chars : List α) (bell : Nat → Bool)
    (out : String) :
    send_until_bell_entry false chars bell out
      = { input_sequence := chars
          chars_accepted := 0
          chars_rejected := chars
          terminal_state := "Not connected"
          bell_position := 0
          full_output := "Not connected" }
    ∧ (send_until_bell_entry false chars bell out).bell_position ≠ -1 := by
  refine ⟨rfl, by simp [send_until_bell_entry]⟩

/-- Witness for C10: the sentinel at a concrete disconnected call. -/
theorem not_connected_sentinel_witness :
    (send_until_bell_entry false ['x'] (fun _ => false) "y").chars_rejected = ['x']
    ∧ (send_until_bell_entry false ['x'] (fun _ => false) "y").bell_position ≠ -1 := by
  have h := not_connected_sentinel ['x'] (fun _ => false) "y"
  exact ⟨by rw [h.1], h.2⟩

/-! ## Correlator theorems (C7) -/

lemma slogQuery_fst (start stop : ℚ) (mb : List LogMessage) :
    (slogQuery start stop mb).1
      = (mb.filter
          (fun m => decide (start ≤ m.timestamp ∧ m.timestamp ≤ stop))).map
            LogMessage.message := by
  induction mb with
  | nil => simp [slogQuery]
  | cons m rest ih =>
    by_cases h1 : start ≤ m.timestamp ∧ m.timestamp ≤ stop
    · simp [slogQuery, List.filter_cons, h1, ih]
    · by_cases h2 : stop < m.timestamp
      · simp [slogQuery, List.filter_cons, h1, h2, ih]
      · simp [slogQuery, List.filter_cons, h1, h2, ih]

lemma slogQuery_snd (start stop : ℚ) (mb : List LogMessage) :
    (slogQuery start stop mb).2
      = mb.filter (fun m => decide (stop < m.timestamp)) := by
  induction mb with
  | nil => simp [slogQuery]
  | cons m rest ih =>
    by_cases h1 : start ≤ m.timestamp ∧ m.timestamp ≤ stop
    · have : ¬ stop < m.timestamp := not_lt.mpr h1.2
      simp [slogQuery, List.filter_cons, h1, this, ih]
    · by_cases h2 : stop < m.timestamp
      · simp [slogQuery, List.filter_cons, h1, h2, ih]
      · simp [slogQuery, List.filter_cons, h1, h2, ih]

/-- Claim C7: the correlator query over a window `(start, stop)` drains
    the mailbox and returns exactly the drained messages with
    `start ≤ t ≤ stop` in order, removing them; everything that survives
    the drain has `t > stop` and is returned by any later query whose
    window covers its timestamp; messages with `t < start` are dropped
    permanently; and no in-window message remains to be returned twice. -/
theorem slog_query_correct (start stop : ℚ) (hws : start ≤ stop)
    (mb : List LogMessage) :
    (slogQuery start stop mb).1
      = (mb.filter
          (fun m => decide (start ≤ m.timestamp ∧ m.timestamp ≤ stop))).map
            LogMessage.message
    ∧ (slogQuery start stop mb).2
        = mb.filter (fun m => decide (stop < m.timestamp))
    ∧ (∀ m ∈ (slogQuery start stop mb).2, stop < m.timestamp)
    ∧ (∀ m ∈ mb, m.timestamp < start → m ∉ (slogQuery start stop mb).2)
    ∧ (∀ m ∈ mb, stop < m.timestamp →
        ∀ s2 e2 : ℚ, s2 ≤ m.timestamp → m.timestamp ≤ e2 →
          m.message ∈ (slogQuery s2 e2 (slogQuery start stop mb).2).1) := by
  refine ⟨slogQuery_fst start stop mb, slogQuery_snd start stop mb, ?_, ?_, ?_⟩
  · intro m hm
    rw [slogQuery_snd] at hm
    exact of_decide_eq_true (List.mem_filter.mp hm).2
  · intro m _ hold hmem
    rw [slogQuery_snd] at hmem
    have := of_decide_eq_true (List.mem_filter.mp hmem).2
    exact absurd (lt_of_le_of_lt hws this) (not_lt.mpr hold.le)
  · intro m hm hnew s2 e2 hs2 he2
    have hkept : m ∈ (slogQuery start stop mb).2 := by
      rw [slogQuery_snd]
      exact List.mem_filter.mpr ⟨hm, decide_eq_true hnew⟩
    rw [slogQuery_fst]
    exact List.mem_map.mpr
      ⟨m, List.mem_filter.mpr ⟨hkept, decide_eq_true ⟨hs2, he2⟩⟩, rfl⟩

/-- Witness for C7: a message arriving after the window `(0, 1)` is kept
    and returned by the later query `(2, 3)` that covers it. -/
theorem slog_query_correct_witness :
    ((0 : ℚ) ≤ 1)
    ∧ "x" ∈ (slogQuery 2 3 (slogQuery 0 1 [⟨2, "x"⟩]).2).1 := by
  refine ⟨by norm_num, ?_⟩
  exact (slog_query_correct 0 1 (by norm_num) [⟨2, "x"⟩]).2.2.2.2
    ⟨2, "x"⟩ (by simp) (by norm_num) 2 3 (by norm_num) (by norm_num)

/-! ## Visible-text theorems (C3) -/

lemma foldl_visibleStep_ne_nil (rows : List Row) :
    ∀ acc : List Row, acc ≠ [] →
      rows.foldl visibleStep acc = acc ++ rows.map rstrip := by
  induction rows with
  | nil => intro acc _; simp
  | cons row rest ih =>
    intro acc hacc
    have hstep : visibleStep acc row = acc ++ [rstrip row] := by
      unfold visibleStep
      rw [if_pos (Or.inr hacc)]
    rw [List.foldl_cons, hstep, ih (acc ++ [rstrip row]) (by simp)]
    simp

lemma foldl_visibleStep_nil (rows : List Row) :
    rows.foldl visibleStep [] = (rows.map rstrip).dropWhile List.isEmpty := by
  induction rows with
  | nil => simp
  | cons row rest ih =>
    by_cases h : rstrip row = []
    · have hstep : visibleStep [] row = [] := by
        unfold visibleStep
        rw [if_neg]
        push_neg
        exact ⟨h, rfl⟩
      rw [List.foldl_cons, hstep, ih]
      simp [List.dropWhile_cons, h]
    · have hstep : visibleStep [] row = [rstrip row] := by
        unfold visibleStep
        rw [if_pos (Or.inl h)]
        rfl
      rw [List.foldl_cons, hstep, foldl_visibleStep_ne_nil rest [rstrip row] (by simp)]
      simp [List.dropWhile_cons, h]

/-- A state built from terminal operations whose first screen row is blank
    and whose second row holds text: screen `[" ", "a"]`. -/
def bufC3 : TerminalBuffer :=
  applyOps [TermOp.nl, TermOp.write ['a']] (TerminalBuffer.init 1 2)

/-- Modelled from the words of claim C3, for comparison with the source's
    `get_visible_text`: keep every row up to the last non-blank row (only
    trailing fully-blank rows removed), each right-stripped, joined by
    newlines. -/
def claimVisibleText (b : TerminalBuffer) : String :=
  String.intercalate "\n" ((dropTrailingBlank (b.screen.map rstrip)).map List.asString)

/-- Counterexample to claim C3 as stated: on a screen whose first row is
    blank and second row is `"a"`, the code returns `"a"` — the blank row
    preceding the last non-blank row is removed, where the claim requires
    it to appear (which would give `"\na"`). -/
theorem visible_text_drops_leading_blank :
    bufC3.get_visible_text = "a"
    ∧ claimVisibleText bufC3 = "\na"
    ∧ bufC3.get_visible_text ≠ claimVisibleText bufC3 := by decide

/-- Claim C3 (amended): `get_visible_text` right-strips each row, removes
    the leading fully-blank rows and the trailing fully-blank rows, keeps
    the remaining rows (blank rows between the first and last non-blank
    rows included) in order, and joins them with newlines; it is a pure
    function of the buffer state. -/
theorem get_visible_text_characterization (b : TerminalBuffer) :
    b.get_visible_text
      = String.intercalate "\n"
          ((dropTrailingBlank
              ((b.screen.map rstrip).dropWhile List.isEmpty)).map List.asString) := by
  unfold TerminalBuffer.get_visible_text
  rw [foldl_visibleStep_nil]

/-! ## Cursor invariant theorems (C4) -/

/-- The state reached by writing two characters on a width-2 screen:
    the cursor column has advanced to `width`. -/
def bufC4 : TerminalBuffer :=
  applyOps [TermOp.write ['a', 'b']] (TerminalBuffer.init 2 2)

/-- Counterexample to claim C4 as stated: after writing `width` many
    characters from a fresh buffer the cursor column equals `width`, so
    `cursor_x < width` does not hold at all times. -/
theorem cursor_can_reach_width :
    bufC4.cursor_x = 2 ∧ ¬ (bufC4.cursor_x < (bufC4.width : Int)) := by decide

/-- The cursor bounds that actually hold at all times (for screens of
    positive width and height): the column may reach `width` itself. -/
def goodCursor (b : TerminalBuffer) : Prop :=
  1 ≤ b.width ∧ 1 ≤ b.height
    ∧ 0 ≤ b.cursor_x ∧ b.cursor_x ≤ (b.width : Int)
    ∧ 0 ≤ b.cursor_y ∧ b.cursor_y < (b.height : Int)

lemma goodCursor_write_char (b : TerminalBuffer) (ch : Char)
    (hb : goodCursor b) : goodCursor (b.write_char ch) := by
  unfold TerminalBuffer.write_char
  split_ifs with h
  · unfold goodCursor at *
    simp only at *
    omega
  · exact hb

lemma goodCursor_write_text (s : List Char) :
    ∀ b : TerminalBuffer, goodCursor b → goodCursor (b.write_text s) := by
  induction s with
  | nil => intro b hb; exact hb
  | cons ch s ih =>
    intro b hb
    exact ih (b.write_char ch) (goodCursor_write_char b ch hb)

lemma goodCursor_apply (op : TermOp) (b : TerminalBuffer)
    (hb : goodCursor b) : goodCursor (op.apply b) := by
  cases op with
  | write s => exact goodCursor_write_text s b hb
  | nl =>
    simp only [TermOp.apply, TerminalBuffer.newline, TerminalBuffer.scroll_up]
    unfold goodCursor at *
    split_ifs with h <;> simp only at * <;> push_cast at * <;>
      refine ⟨?_, ?_, ?_, ?_, ?_, ?_⟩ <;> first | trivial | omega
  | setCol c =>
    simp only [TermOp.apply]
    unfold TerminalBuffer.set_cursor_col
    unfold goodCursor at *
    simp only at *
    omega
  | setPos x y =>
    simp only [TermOp.apply]
    unfold TerminalBuffer.set_cursor_pos
    unfold goodCursor at *
    simp only at *
    omega
  | clearL =>
    simp only [TermOp.apply]
    unfold TerminalBuffer.clear_line
    unfold goodCursor at *
    split_ifs <;> simp only at * <;> omega
  | clearS =>
    simp only [TermOp.apply]
    unfold TerminalBuffer.clear_screen
    unfold goodCursor at *
    simp only at *
    omega
  | bell => exact hb

lemma goodCursor_applyOps (ops : List TermOp) :
    ∀ b : TerminalBuffer, goodCursor b → goodCursor (applyOps ops b) := by
  induction ops with
  | nil => intro b hb; exact hb
  | cons op ops ih =>
    intro b hb
    exact ih (op.apply b) (goodCursor_apply op b hb)

/-- Claim C4 (amended): after any sequence of operations on a freshly
    constructed buffer of positive width and height, the cursor satisfies
    `0 ≤ cursor_x ≤ width` (the column can momentarily equal `width`
    after a write into the last column) and `0 ≤ cursor_y < height`. -/
theorem cursor_bounds (w h : Nat) (hw : 1 ≤ w) (hh : 1 ≤ h)
    (ops : List TermOp) :
    0 ≤ (applyOps ops (TerminalBuffer.init w h)).cursor_x
    ∧ (applyOps ops (TerminalBuffer.init w h)).cursor_x
        ≤ ((applyOps ops (TerminalBuffer.init w h)).width : Int)
    ∧ 0 ≤ (applyOps ops (TerminalBuffer.init w h)).cursor_y
    ∧ (applyOps ops (TerminalBuffer.init w h)).cursor_y
        < ((applyOps ops (TerminalBuffer.init w h)).height : Int) := by
  have hinit : goodCursor (TerminalBuffer.init w h) := by
    unfold goodCursor TerminalBuffer.init
    simp only
    omega
  have hinv := goodCursor_applyOps ops (TerminalBuffer.init w h) hinit
  exact ⟨hinv.2.2.1, hinv.2.2.2.1, hinv.2.2.2.2.1, hinv.2.2.2.2.2⟩

/-- Witness for C4 (amended): at the very state of the counterexample the
    amended bound `cursor_x ≤ width` holds. -/
theorem cursor_bounds_witness :
    (1 : Nat) ≤ 2
    ∧ (applyOps [TermOp.write ['a', 'b']] (TerminalBuffer.init 2 2)).cursor_x
        ≤ ((applyOps [TermOp.write ['a', 'b']] (TerminalBuffer.init 2 2)).width : Int) :=
  ⟨by decide, (cursor_bounds 2 2 (by decide) (by decide) [TermOp.write ['a', 'b']]).2.1⟩

/-! ## Newline theorems (C6) -/

lemma newline_screen_cases (b : TerminalBuffer) :
    (b.newline).screen = b.screen
    ∨ (b.newline).screen = b.screen ++ [List.replicate b.width ' '] := by
  simp only [TerminalBuffer.newline, TerminalBuffer.scroll_up]
  split_ifs with h
  · right; rfl
  · left; rfl

lemma head?_append_right {α : Type} (l : List α) (x : α) (h : l ≠ []) :
    (l ++ [x]).head? = l.head? := by
  cases l with
  | nil => exact absurd rfl h
  | cons a t => rfl

lemma newline_iter_head (b : TerminalBuffer) (hb : b.screen ≠ []) :
    ∀ n, (TerminalBuffer.newline^[n] b).screen ≠ []
      ∧ (TerminalBuffer.newline^[n] b).screen.head? = b.screen.head? := by
  intro n
  induction n with
  | zero => exact ⟨hb, rfl⟩
  | succ n ih =>
    rw [Function.iterate_succ_apply']
    rcases newline_screen_cases (TerminalBuffer.newline^[n] b) with hc | hc
    · exact ⟨by rw [hc]; exact ih.1, by rw [hc]; exact ih.2⟩
    · refine ⟨by rw [hc]; simp, ?_⟩
      rw [hc, head?_append_right _ _ ih.1]
      exact ih.2

/-- Claim C6: `newline` zeroes the cursor column and advances the row;
    when the row would reach `height`, exactly one blank row of `width`
    spaces is appended, `height` grows by one and the row ends at the
    pre-call `height`; no existing row is removed or modified, so row 0
    is unchanged by any number of `newline` calls. -/
theorem newline_spec (b : TerminalBuffer) :
    (b.newline).cursor_x = 0
    ∧ (b.cursor_y + 1 < (b.height : Int) →
        b.newline = { b with cursor_x := 0, cursor_y := b.cursor_y + 1 })
    ∧ ((b.height : Int) ≤ b.cursor_y + 1 →
        (b.newline).height = b.height + 1
        ∧ (b.newline).screen = b.screen ++ [List.replicate b.width ' ']
        ∧ (b.newline).cursor_y = (b.height : Int))
    ∧ (∀ n, b.screen ≠ [] →
        (TerminalBuffer.newline^[n] b).screen.head? = b.screen.head?) := by
  refine ⟨?_, ?_, ?_, fun n hb => (newline_iter_head b hb n).2⟩
  · simp only [TerminalBuffer.newline, TerminalBuffer.scroll_up]
    split_ifs with h <;> rfl
  · intro h
    simp only [TerminalBuffer.newline, TerminalBuffer.scroll_up]
    rw [if_neg (by omega)]
  · intro h
    simp only [TerminalBuffer.newline, TerminalBuffer.scroll_up]
    rw [if_pos h]
    refine ⟨rfl, rfl, ?_⟩
    push_cast
    ring

/-- Witness for C6: a `newline` at the bottom of a 2x1 screen grows the
    height to 2. -/
theorem newline_spec_witness :
    (((TerminalBuffer.init 2 1).height : Int) ≤ (TerminalBuffer.init 2 1).cursor_y + 1)
    ∧ ((TerminalBuffer.init 2 1).newline).height = 2 := by
  have h := (newline_spec (TerminalBuffer.init 2 1)).2.2.1 (by decide)
  refine ⟨by decide, ?_⟩
  rw [h.1]
  rfl

/-! ## Write frame theorems (C8) -/

lemma write_char_width (b : TerminalBuffer) (ch : Char) :
    (b.write_char ch).width = b.width := by
  unfold TerminalBuffer.write_char
  split_ifs <;> rfl

lemma write_char_height (b : TerminalBuffer) (ch : Char) :
    (b.write_char ch).height = b.height := by
  unfold TerminalBuffer.write_char
  split_ifs <;> rfl

lemma write_char_cursor_y (b : TerminalBuffer) (ch : Char) :
    (b.write_char ch).cursor_y = b.cursor_y := by
  unfold TerminalBuffer.write_char
  split_ifs <;> rfl

lemma write_char_screen_length (b : TerminalBuffer) (ch : Char) :
    (b.write_char ch).screen.length = b.screen.length := by
  unfold TerminalBuffer.write_char
  split_ifs
  · simp
  · rfl

lemma write_char_other_rows (b : TerminalBuffer) (ch : Char) (i : Nat)
    (hi : i ≠ b.cursor_y.toNat) :
    (b.write_char ch).screen.get? i = b.screen.get? i := by
  unfold TerminalBuffer.write_char
  split_ifs
  · simp only
    exact List.get?_set_ne _ _ (fun h => hi h.symm)
  · rfl

lemma write_char_oob (b : TerminalBuffer) (ch : Char)
    (h : (b.width : Int) ≤ b.cursor_x ∨ (b.height : Int) ≤ b.cursor_y) :
    b.write_char ch = b := by
  unfold TerminalBuffer.write_char
  rw [if_neg]
  rintro ⟨h1, h2⟩
  rcases h with h | h <;> omega

lemma write_text_frame_aux (s : List Char) :
    ∀ b : TerminalBuffer,
      (b.write_text s).width = b.width
      ∧ (b.write_text s).height = b.height
      ∧ (b.write_text s).cursor_y = b.cursor_y
      ∧ (b.write_text s).screen.length = b.screen.length
      ∧ ∀ i, i ≠ b.cursor_y.toNat →
          (b.write_text s).screen.get? i = b.screen.get? i := by
  induction s with
  | nil => intro b; exact ⟨rfl, rfl, rfl, rfl, fun i _ => rfl⟩
  | cons ch s ih =>
    intro b
    have hstep : b.write_text (ch :: s) = (b.write_char ch).write_text s := rfl
    have hc := ih (b.write_char ch)
    rw [hstep]
    refine ⟨hc.1.trans (write_char_width b ch),
      hc.2.1.trans (write_char_height b ch),
      hc.2.2.1.trans (write_char_cursor_y b ch),
      hc.2.2.2.1.trans (write_char_screen_length b ch), ?_⟩
    intro i hi
    have hcy : (b.write_char ch).cursor_y.toNat = b.cursor_y.toNat := by
      rw [write_char_cursor_y]
    rw [hc.2.2.2.2 i (by rw [hcy]; exact hi), write_char_other_rows b ch i hi]

lemma write_text_oob (s : List Char) :
    ∀ b : TerminalBuffer,
      ((b.width : Int) ≤ b.cursor_x ∨ (b.height : Int) ≤ b.cursor_y) →
      b.write_text s = b := by
  induction s with
  | nil => intro b _; rfl
  | cons ch s ih =>
    intro b h
    have hstep : b.write_text (ch :: s) = (b.write_char ch).write_text s := rfl
    rw [hstep, write_char_oob b ch h]
    exact ih b h

/-- Claim C8: `write_text` never changes the height and never wraps: the
    cursor row, the screen height and width, the row count, and every row
    other than the cursor row are unchanged, and when the cursor column
    has reached `width` (or the cursor row is at or past `height`) the
    whole write is a no-op.  The non-negativity hypotheses restrict to the
    states reachable from buffers of positive dimensions, where the model
    matches Python's indexing. -/
theorem write_text_frame (b : TerminalBuffer) (s : List Char)
    (hx : 0 ≤ b.cursor_x) (hy : 0 ≤ b.cursor_y) :
    (b.write_text s).width = b.width
    ∧ (b.write_text s).height = b.height
    ∧ (b.write_text s).cursor_y = b.cursor_y
    ∧ (b.write_text s).screen.length = b.screen.length
    ∧ (∀ i, i ≠ b.cursor_y.toNat →
        (b.write_text s).screen.get? i = b.screen.get? i)
    ∧ (((b.width : Int) ≤ b.cursor_x ∨ (b.height : Int) ≤ b.cursor_y) →
        b.write_text s = b) := by
  have h := write_text_frame_aux s b
  exact ⟨h.1, h.2.1, h.2.2.1, h.2.2.2.1, h.2.2.2.2, write_text_oob s b⟩

/-- Witness for C8: writing past the last column (cursor at `width`) is a
    no-op on a concrete buffer. -/
theorem write_text_frame_witness :
    (0 : Int) ≤ bufC4.cursor_x
    ∧ bufC4.write_text ['z'] = bufC4 := by
  have h := (write_text_frame bufC4 ['z'] (by decide) (by decide)).2.2.2.2.2
    (Or.inl (by decide))
  exact ⟨by decide, h⟩

/-! ## Clear-screen theorems (C9) -/

lemma rstrip_replicate_space (w : Nat) : rstrip (List.replicate w ' ') = [] := by
  have hd : List.dropWhile pyIsSpace (List.replicate w ' ') = [] := by
    rw [List.dropWhile_eq_nil_iff]
    intro x hx
    rw [List.eq_of_mem_replicate hx]
    decide
  simp [rstrip, List.reverse_replicate, hd]

lemma foldl_visibleStep_blank (w h : Nat) :
    (List.replicate h (List.replicate w ' ')).foldl visibleStep [] = [] := by
  induction h with
  | zero => rfl
  | succ h ih =>
    rw [List.replicate_succ, List.foldl_cons]
    have hstep : visibleStep [] (List.replicate w ' ') = [] := by
      simp [visibleStep, rstrip_replicate_space w]
    rw [hstep, ih]

/-- Claim C9: `clear_screen` blanks every row at the current (possibly
    grown) height and homes the cursor, leaving `width` and `height`
    unchanged — in particular the height stays at whatever it had grown
    to, never shrinking back to the construction-time value; the visible
    text afterwards is empty. -/
theorem clear_screen_spec (b : TerminalBuffer) :
    b.clear_screen.width = b.width
    ∧ b.clear_screen.height = b.height
    ∧ b.clear_screen.cursor_x = 0
    ∧ b.clear_screen.cursor_y = 0
    ∧ b.clear_screen.screen = List.replicate b.height (List.replicate b.width ' ')
    ∧ b.clear_screen.get_visible_text = "" := by
  refine ⟨rfl, rfl, rfl, rfl, rfl, ?_⟩
  unfold TerminalBuffer.get_visible_text
  simp only [TerminalBuffer.clear_screen]
  rw [foldl_visibleStep_blank]
  rfl
